import Mathlib

/-!
# Verification of the FOK (Fill-Or-Kill) order execution engine

Shallow embedding of `app/fok_executor.py` (the core subsystem of the
repository): exchange-filter quantization, order-book depth walking, and the
bounded retry loop with a cumulative drift budget, together with proofs of the
specification's testable properties.

Modelling conventions:
* Python floats are embedded as rationals (`ℚ`); the literal `1e-12` used by
  `_ensure_min_notional` becomes `1 / 10 ^ 12`.
* Network effects (`client.get_symbol_info`, `client.get_order_book`,
  `client.create_order`) are modelled by oracle fields of a `Client` record;
  each call site increments an explicit counter so that fetch-frequency claims
  can be stated.  `create_order` outcomes are restricted to the two cases the
  source handles: a full fill, or a caught exchange exception
  (`BinanceAPIException` / `BinanceOrderException`), modelled as
  `ExchangeError`.  An uncovered `ValueError` from the liquidity walk
  propagates out of the loop, which the embedding represents as the
  `insufficientLiquidity` result.
* `time.sleep` is recorded as a boolean `slept` flag on the attempt log;
  string formatting of price/qty in the API call is not modelled.
-/

/-- Order side, from `binance.enums.SIDE_BUY` / `SIDE_SELL` as used by the
source (`side == SIDE_BUY`; any other side takes the SELL branch). -/
inductive Side where
  | buy
  | sell
deriving DecidableEq

/-- The filter constants extracted by `_get_symbol_filters`
(`fok_executor.py:34`): tickSize, stepSize, minQty, maxQty, minNotional. -/
structure SymbolFilters where
  tick_size : ℚ
  step_size : ℚ
  min_qty : ℚ
  max_qty : ℚ
  min_notional : ℚ
deriving DecidableEq

/-- An order-book snapshot as returned by `client.get_order_book`: `asks` and
`bids` are lists of (price, quantity) levels. -/
structure OrderBook where
  asks : List (ℚ × ℚ)
  bids : List (ℚ × ℚ)
deriving DecidableEq

/-- `_round_step` (`fok_executor.py:47`): floor `value` to a multiple of
`step`; a non-positive step returns the value unchanged. -/
def round_step (value step : ℚ) : ℚ :=
  if step ≤ 0 then value else (⌊value / step⌋ : ℚ) * step

/-- `_round_price_for_side` (`fok_executor.py:52`): BUY rounds up to the tick,
SELL rounds down; a non-positive tick returns the price unchanged. -/
def round_price_for_side (price tick : ℚ) (side : Side) : ℚ :=
  if tick ≤ 0 then price
  else
    match side with
    | .buy => (⌈price / tick⌉ : ℚ) * tick
    | .sell => (⌊price / tick⌋ : ℚ) * tick

/-- The quantity part of `_apply_filters` (`fok_executor.py:60`):
`qty = max(_round_step(qty, step_size), min_qty); qty = min(qty, max_qty)`,
paired with the side-aware price rounding.  The filter fetch performed by the
Python function is accounted for in the retry loop below. -/
def apply_filters (f : SymbolFilters) (side : Side) (price qty : ℚ) : ℚ × ℚ :=
  (round_price_for_side price f.tick_size side,
   min (max (round_step qty f.step_size) f.min_qty) f.max_qty)

/-- The scanning loop shared by both branches of `_price_to_fill_full_qty`
(`fok_executor.py:69`): walk the levels accumulating quantity, and return the
price of the first level at which the accumulated quantity reaches the
target; `none` models the `ValueError` raised when the loop is exhausted. -/
def cover_scan (levels : List (ℚ × ℚ)) (quantity accum : ℚ) : Option ℚ :=
  match levels with
  | [] => none
  | (p, q) :: rest =>
      if quantity ≤ accum + q then some p else cover_scan rest quantity (accum + q)

/-- `_price_to_fill_full_qty` (`fok_executor.py:69`): BUY walks `asks`, any
other side walks `bids`; `none` models the raised `ValueError`
("Недостаточно ликвидности"). -/
def price_to_fill_full_qty (book : OrderBook) (side : Side) (quantity : ℚ) : Option ℚ :=
  match side with
  | .buy => cover_scan book.asks quantity 0
  | .sell => cover_scan book.bids quantity 0

/-- `_ensure_min_notional` (`fok_executor.py:90`): if
`price * qty + 1e-12 >= min_notional` the quantity is returned unchanged;
otherwise the inflated quantity `min_notional / max(price, 1e-12)` is floored
to the step and clamped into `[min_qty, max_qty]` and returned without any
further notional check.  The filter fetch performed by the Python function is
accounted for in the retry loop below. -/
def ensure_min_notional (f : SymbolFilters) (price qty : ℚ) : ℚ :=
  if f.min_notional ≤ price * qty + 1 / 10 ^ 12 then qty
  else
    min (max (round_step (f.min_notional / max price (1 / 10 ^ 12)) f.step_size) f.min_qty)
      f.max_qty

/-- A caught exchange exception (`BinanceAPIException` / `BinanceOrderException`,
`fok_executor.py:157`).  `code` is the Binance error code; `rateLimited`
classifies the exception as a rate-limit rejection (e.g. code -1003), a
distinction the source never inspects. -/
structure ExchangeError where
  code : ℤ
  rateLimited : Bool
deriving DecidableEq

/-- The order dict returned by a successful `client.create_order`. -/
structure Order where
  orderId : ℕ
  execPrice : ℚ
  execQty : ℚ
deriving DecidableEq

/-- Outcome of one `client.create_order` call as the source observes it:
either the FOK order filled completely, or a caught exchange exception. -/
inductive SubmitResult where
  | filled (o : Order)
  | rejected (e : ExchangeError)
deriving DecidableEq

/-- Oracle model of the `binance.client.Client` for one symbol: the symbol's
filter constants, the order book returned by the k-th `get_order_book` call,
and the outcome of `create_order` on a given attempt at a given price and
quantity. -/
structure Client where
  filters : SymbolFilters
  book : ℕ → OrderBook
  submit : ℕ → ℚ → ℚ → SubmitResult

/-- The keyword parameters of `place_limit_order_fok_with_retries`
(`fok_executor.py:102`), with the source's defaults recorded in `defaults`
below.  `max_retries` is an integer as in Python; `range(1, max_retries + 1)`
makes fewer-than-one retries an empty loop. -/
structure FokConfig where
  depth_limit : ℕ
  slippage_bps : ℚ
  max_retries : ℤ
  retry_sleep : ℚ
  per_attempt_drift_bps : ℚ
  max_total_drift_bps : ℚ

/-- The default configuration of `place_limit_order_fok_with_retries`. -/
def FokConfig.defaults : FokConfig :=
  ⟨50, 5, 3, 3 / 2, 2, 20⟩

/-- Observable record of one attempt that reached the submission stage:
the covering price found in the fresh book, the reference price
(`base_price_ref`), the raw slippage-adjusted price, the submitted price and
quantity, the caught error (`none` when the order filled), the value of
`total_drift_bps` before and after the attempt's bookkeeping, and whether the
attempt ended in `time.sleep(retry_sleep)`. -/
structure AttemptLog where
  attempt : ℕ
  base_price : ℚ
  base_price_ref : ℚ
  raw_price : ℚ
  price : ℚ
  qty : ℚ
  err : Option ExchangeError
  driftBefore : ℚ
  driftAfter : ℚ
  slept : Bool
deriving DecidableEq

/-- How one execution of `place_limit_order_fok_with_retries` terminates:
the returned order dict, the uncaught `ValueError` from the liquidity walk,
`raise last_err` (`fok_executor.py:176`), or the final
`raise RuntimeError(...)` fallback (`fok_executor.py:177`). -/
inductive FokResult where
  | filledOrder (o : Order)
  | insufficientLiquidity
  | raisedLast (e : ExchangeError)
  | runtimeError
deriving DecidableEq

/-- Which control path ended the execution: a full fill, the liquidity
`ValueError`, the drift-budget `break` (`fok_executor.py:170`), falling off
the loop after consuming all retries, or never entering the loop. -/
inductive ExitReason where
  | filledOk
  | liquidityAbort
  | budgetAbort
  | retriesExhausted
  | noAttempts
deriving DecidableEq

/-- The mutable locals of `place_limit_order_fok_with_retries`
(`last_err`, `total_drift_bps`, `base_price_ref`) together with counters of
the network calls made so far (`_get_symbol_filters` and `get_order_book`). -/
structure RunState where
  last_err : Option ExchangeError
  total_drift_bps : ℚ
  base_price_ref : Option ℚ
  filterFetches : ℕ
  bookFetches : ℕ
deriving DecidableEq

/-- Result of a whole execution: the value/exception produced, the exit path,
the log of every attempt that reached submission, and the final state. -/
structure RunOutput where
  result : FokResult
  reason : ExitReason
  trace : List AttemptLog
  finalState : RunState
deriving DecidableEq

/-- Outcome of one iteration of the attempt loop: either the function
terminates (value/exception, exit reason, logged attempts, final state), or
the loop continues into the next iteration with an updated state. -/
inductive StepRes where
  | halt (r : FokResult) (reason : ExitReason) (tr : List AttemptLog) (st1 : RunState)
  | cont (a : AttemptLog) (st1 : RunState)

/-- One iteration of the attempt loop of `place_limit_order_fok_with_retries`
(`fok_executor.py:121`-`173`): fetch the book, find the covering price
(aborting on `ValueError`), set `base_price_ref` on the first attempt, apply
the slippage margin to the freshly derived base price, apply filters and the
min-notional inflation (each re-fetching the symbol filters), submit, and on
a caught rejection either `break` when the next bump would exceed
`max_total_drift_bps` or consume the bump and sleep. -/
def fok_attempt (c : Client) (cfg : FokConfig) (side : Side) (quantity : ℚ)
    (attempt : ℕ) (st : RunState) : StepRes :=
  match price_to_fill_full_qty (c.book st.bookFetches) side quantity with
  | none =>
      .halt .insufficientLiquidity .liquidityAbort []
        { st with bookFetches := st.bookFetches + 1 }
  | some base_price =>
      let ref := st.base_price_ref.getD base_price
      let raw_price :=
        match side with
        | .buy => base_price * (1 + cfg.slippage_bps / 10000)
        | .sell => base_price * (1 - cfg.slippage_bps / 10000)
      let pq := apply_filters c.filters side raw_price quantity
      let qty := ensure_min_notional c.filters pq.1 pq.2
      let st1 : RunState :=
        { st with
          bookFetches := st.bookFetches + 1
          filterFetches := st.filterFetches + 2
          base_price_ref := some ref }
      match c.submit attempt pq.1 qty with
      | .filled o =>
          .halt (.filledOrder o) .filledOk
            [⟨attempt, base_price, ref, raw_price, pq.1, qty, none,
              st.total_drift_bps, st.total_drift_bps, false⟩] st1
      | .rejected e =>
          if cfg.max_total_drift_bps < st.total_drift_bps + cfg.per_attempt_drift_bps then
            .halt (.raisedLast e) .budgetAbort
              [⟨attempt, base_price, ref, raw_price, pq.1, qty, some e,
                st.total_drift_bps, st.total_drift_bps, false⟩]
              { st1 with last_err := some e }
          else
            .cont
              ⟨attempt, base_price, ref, raw_price, pq.1, qty, some e,
               st.total_drift_bps, st.total_drift_bps + cfg.per_attempt_drift_bps, true⟩
              { st1 with
                last_err := some e
                total_drift_bps := st.total_drift_bps + cfg.per_attempt_drift_bps }

/-- The attempt loop (`for attempt in range(1, max_retries + 1)`) followed by
the epilogue `raise last_err` / `raise RuntimeError` (`fok_executor.py:175`).
`fuel` is the number of remaining loop iterations. -/
def fok_loop (c : Client) (cfg : FokConfig) (side : Side) (quantity : ℚ) :
    ℕ → ℕ → RunState → RunOutput
  | 0, _, st =>
      match st.last_err with
      | some e => ⟨.raisedLast e, .retriesExhausted, [], st⟩
      | none => ⟨.runtimeError, .noAttempts, [], st⟩
  | fuel + 1, attempt, st =>
      match fok_attempt c cfg side quantity attempt st with
      | .halt r reason tr st1 => ⟨r, reason, tr, st1⟩
      | .cont a st1 =>
          let out := fok_loop c cfg side quantity fuel (attempt + 1) st1
          ⟨out.result, out.reason, a :: out.trace, out.finalState⟩

/-- `place_limit_order_fok_with_retries` (`fok_executor.py:102`):
run the attempt loop `max(max_retries, 0)` times starting from attempt 1 with
`last_err = None`, `total_drift_bps = 0.0`, `base_price_ref = None`. -/
def place_limit_order_fok_with_retries (c : Client) (cfg : FokConfig) (side : Side)
    (quantity : ℚ) : RunOutput :=
  fok_loop c cfg side quantity cfg.max_retries.toNat 1 ⟨none, 0, none, 0, 0⟩

/-- `x` is an integer multiple of `step`. -/
def is_step_multiple (x step : ℚ) : Prop :=
  ∃ k : ℤ, x = (k : ℚ) * step

/-- Cumulative quantity of the levels priced at or below `P`. -/
def cum_qty_le (levels : List (ℚ × ℚ)) (P : ℚ) : ℚ :=
  ((levels.filter fun l => decide (l.1 ≤ P)).map Prod.snd).sum

/-- Cumulative quantity of the levels priced at or above `P`. -/
def cum_qty_ge (levels : List (ℚ × ℚ)) (P : ℚ) : ℚ :=
  ((levels.filter fun l => decide (P ≤ l.1)).map Prod.snd).sum

/-! ## Concrete data used in witnesses and counterexamples -/

/-- Permissive filters: tick 1, step 1, no minimum quantity or notional. -/
def plainFilters : SymbolFilters := ⟨1, 1, 0, 10 ^ 9, 0⟩

/-- A book with a single ask level: 10 units offered at price 100. -/
def plainBook : OrderBook := ⟨[(100, 10)], []⟩

/-- Client whose every submission is rejected with a generic (non-rate-limit)
exchange error, over a constant one-level book. -/
def rejectingClient : Client :=
  ⟨plainFilters, fun _ => plainBook, fun _ _ _ => .rejected ⟨-2010, false⟩⟩

/-- Client whose every submission is rejected with a rate-limit error
(Binance code -1003), over a constant one-level book. -/
def rateLimitedClient : Client :=
  ⟨plainFilters, fun _ => plainBook, fun _ _ _ => .rejected ⟨-1003, true⟩⟩

/-- Client whose first submission fills completely. -/
def fillingClient : Client :=
  ⟨plainFilters, fun _ => plainBook, fun _ _ _ => .filled ⟨1, 100, 5⟩⟩

/-- Client whose book is always empty on both sides. -/
def emptyBookClient : Client :=
  ⟨plainFilters, fun _ => ⟨[], []⟩, fun _ _ _ => .rejected ⟨-2010, false⟩⟩

/-- Configuration with no slippage margin, 2 retries, 2 bps drift per attempt,
20 bps total budget. -/
def cfgTwoRetries : FokConfig := ⟨50, 0, 2, 3 / 2, 2, 20⟩

/-- Same as `cfgTwoRetries` but with a single retry. -/
def cfgOneRetry : FokConfig := ⟨50, 0, 1, 3 / 2, 2, 20⟩

/-- Same as `cfgTwoRetries` but with `max_retries = 0`. -/
def cfgNoRetries : FokConfig := ⟨50, 0, 0, 3 / 2, 2, 20⟩

/-- Filters with a minimum notional of 10 (step 1, no minimum quantity). -/
def notionalFilters : SymbolFilters := ⟨1 / 100, 1, 0, 10 ^ 9, 10⟩

/-- Filters whose `min_qty` (1/2) is not a multiple of `step_size` (3/10). -/
def mismatchedFilters : SymbolFilters := ⟨1 / 100, 3 / 10, 1 / 2, 10 ^ 9, 0⟩

/-- Filters with step 1/10 whose bounds are multiples of the step. -/
def alignedFilters : SymbolFilters := ⟨1 / 100, 1 / 10, 1 / 10, 100, 0⟩

/-- The specification's end-to-end scenario A book: 100 units at 10.00 and
50 more at 10.01 on the ask side. -/
def scenarioABook : OrderBook := ⟨[(10, 100), (1001 / 100, 50)], []⟩

/-! ## Rounding lemmas -/

theorem ceil_as_floor (a : ℚ) : (⌈a⌉ : ℤ) = -⌊-a⌋ := by
  rw [Int.floor_neg, neg_neg]

theorem round_step_of_pos (value step : ℚ) (hs : 0 < step) :
    round_step value step = (⌊value / step⌋ : ℚ) * step := by
  rw [round_step, if_neg (not_le.mpr hs)]

theorem round_step_le (value step : ℚ) (hs : 0 < step) : round_step value step ≤ value := by
  rw [round_step_of_pos value step hs]
  calc (⌊value / step⌋ : ℚ) * step ≤ value / step * step :=
        mul_le_mul_of_nonneg_right (Int.floor_le _) hs.le
    _ = value := div_mul_cancel₀ value (ne_of_gt hs)

theorem round_step_multiple (value step : ℚ) (hs : 0 < step) :
    is_step_multiple (round_step value step) step :=
  ⟨⌊value / step⌋, by rw [round_step_of_pos value step hs]⟩

theorem is_step_multiple_max {x y s : ℚ} (hx : is_step_multiple x s)
    (hy : is_step_multiple y s) : is_step_multiple (max x y) s := by
  rcases max_choice x y with h | h <;> rw [h] <;> assumption

theorem is_step_multiple_min {x y s : ℚ} (hx : is_step_multiple x s)
    (hy : is_step_multiple y s) : is_step_multiple (min x y) s := by
  rcases min_choice x y with h | h <;> rw [h] <;> assumption

/-! ## C7: side-aware price quantization -/

/-- C7: for every raw price `p` and tick `t > 0`, price quantization never
rounds to nearest: for a Buy, `_round_price_for_side` returns
`⌈p / t⌉ * t`, the smallest integer multiple of `t` at or above `p`; for a
Sell it returns `⌊p / t⌋ * t`, the largest integer multiple of `t` at or
below `p`. -/
theorem C7_price_rounding_side_aware (p t : ℚ) (ht : 0 < t) :
    (round_price_for_side p t .buy = (⌈p / t⌉ : ℚ) * t ∧
     p ≤ round_price_for_side p t .buy ∧
     is_step_multiple (round_price_for_side p t .buy) t ∧
     ∀ k : ℤ, p ≤ (k : ℚ) * t → round_price_for_side p t .buy ≤ (k : ℚ) * t) ∧
    (round_price_for_side p t .sell = (⌊p / t⌋ : ℚ) * t ∧
     round_price_for_side p t .sell ≤ p ∧
     is_step_multiple (round_price_for_side p t .sell) t ∧
     ∀ k : ℤ, (k : ℚ) * t ≤ p → (k : ℚ) * t ≤ round_price_for_side p t .sell) := by
  have hnt : ¬ t ≤ 0 := not_le.mpr ht
  have hbuy : round_price_for_side p t .buy = (⌈p / t⌉ : ℚ) * t := by
    rw [round_price_for_side, if_neg hnt]
  have hsell : round_price_for_side p t .sell = (⌊p / t⌋ : ℚ) * t := by
    rw [round_price_for_side, if_neg hnt]
  refine ⟨⟨hbuy, ?_, ?_, ?_⟩, hsell, ?_, ?_, ?_⟩
  · rw [hbuy]
    calc p = p / t * t := (div_mul_cancel₀ p (ne_of_gt ht)).symm
      _ ≤ (⌈p / t⌉ : ℚ) * t := mul_le_mul_of_nonneg_right (Int.le_ceil _) ht.le
  · exact ⟨⌈p / t⌉, hbuy⟩
  · intro k hk
    rw [hbuy]
    have h1 : p / t ≤ (k : ℚ) := (div_le_iff₀ ht).mpr hk
    have h2 : ((⌈p / t⌉ : ℤ) : ℚ) ≤ (k : ℚ) := by exact_mod_cast Int.ceil_le.mpr h1
    exact mul_le_mul_of_nonneg_right h2 ht.le
  · rw [hsell]
    calc (⌊p / t⌋ : ℚ) * t ≤ p / t * t := mul_le_mul_of_nonneg_right (Int.floor_le _) ht.le
      _ = p := div_mul_cancel₀ p (ne_of_gt ht)
  · exact ⟨⌊p / t⌋, hsell⟩
  · intro k hk
    rw [hsell]
    have h1 : (k : ℚ) ≤ p / t := (le_div_iff₀ ht).mpr hk
    have h2 : (k : ℚ) ≤ ((⌊p / t⌋ : ℤ) : ℚ) := by exact_mod_cast Int.le_floor.mpr h1
    exact mul_le_mul_of_nonneg_right h2 ht.le

/-- Witness for C7 at `p = 3/4`, `t = 1/2`. -/
theorem C7_price_rounding_witness :
    0 < (1 / 2 : ℚ) ∧
    round_price_for_side (3 / 4) (1 / 2) .buy = 1 ∧
    round_price_for_side (3 / 4) (1 / 2) .sell = 1 / 2 ∧
    ((round_price_for_side (3 / 4) (1 / 2) .buy = (⌈(3 / 4 : ℚ) / (1 / 2)⌉ : ℚ) * (1 / 2) ∧
      (3 / 4 : ℚ) ≤ round_price_for_side (3 / 4) (1 / 2) .buy ∧
      is_step_multiple (round_price_for_side (3 / 4) (1 / 2) .buy) (1 / 2) ∧
      ∀ k : ℤ, (3 / 4 : ℚ) ≤ (k : ℚ) * (1 / 2) →
        round_price_for_side (3 / 4) (1 / 2) .buy ≤ (k : ℚ) * (1 / 2)) ∧
     (round_price_for_side (3 / 4) (1 / 2) .sell = (⌊(3 / 4 : ℚ) / (1 / 2)⌋ : ℚ) * (1 / 2) ∧
      round_price_for_side (3 / 4) (1 / 2) .sell ≤ 3 / 4 ∧
      is_step_multiple (round_price_for_side (3 / 4) (1 / 2) .sell) (1 / 2) ∧
      ∀ k : ℤ, (k : ℚ) * (1 / 2) ≤ 3 / 4 →
        (k : ℚ) * (1 / 2) ≤ round_price_for_side (3 / 4) (1 / 2) .sell)) :=
  ⟨by norm_num, by norm_num [round_price_for_side, ceil_as_floor],
   by norm_num [round_price_for_side],
   C7_price_rounding_side_aware (3 / 4) (1 / 2) (by norm_num)⟩

/-! ## C6: quantity quantization -/

/-- C6 counterexample: with `step_size = 3/10`, `min_qty = 1/2` and raw
quantity `q = 1/5`, `_apply_filters` clamps the floored quantity up to
`min_qty = 1/2`, which exceeds `q` and is not an integer multiple of the
step — refuting the claim that the produced quantity is always a multiple of
`stepSize` and at or below the raw quantity. -/
theorem C6_quantity_quantization_counterexample :
    (apply_filters mismatchedFilters .buy 1 (1 / 5)).2 = 1 / 2 ∧
    ¬ (apply_filters mismatchedFilters .buy 1 (1 / 5)).2 ≤ 1 / 5 ∧
    ¬ is_step_multiple (apply_filters mismatchedFilters .buy 1 (1 / 5)).2
        mismatchedFilters.step_size := by
  have h2 : (apply_filters mismatchedFilters .buy 1 (1 / 5)).2 = 1 / 2 := by
    norm_num [apply_filters, mismatchedFilters, round_step]
  refine ⟨h2, by rw [h2]; norm_num, ?_⟩
  rintro ⟨k, hk⟩
  rw [h2] at hk
  have hstep : mismatchedFilters.step_size = 3 / 10 := rfl
  rw [hstep] at hk
  have h3 : (k : ℚ) * 3 = 5 := by linarith
  have h4 : (k * 3 : ℤ) = 5 := by exact_mod_cast h3
  omega

/-- C6 (amended): for every raw quantity `q ≥ 0`, provided the filter bounds
are themselves aligned (`0 < stepSize`, `minQty` and `maxQty` integer
multiples of `stepSize`, `minQty ≤ maxQty`), the produced quantity is an
exact multiple of `stepSize`, lies within `[minQty, maxQty]`, and is at most
`max q minQty` — i.e. flooring never rounds up past the raw quantity except
when the `minQty` clamp forces the minimum. -/
theorem C6_quantity_quantization_amended (f : SymbolFilters) (side : Side) (p q : ℚ)
    (hs : 0 < f.step_size) (hmin : is_step_multiple f.min_qty f.step_size)
    (hmax : is_step_multiple f.max_qty f.step_size)
    (hmm : f.min_qty ≤ f.max_qty) (_hq : 0 ≤ q) :
    is_step_multiple (apply_filters f side p q).2 f.step_size ∧
    f.min_qty ≤ (apply_filters f side p q).2 ∧
    (apply_filters f side p q).2 ≤ f.max_qty ∧
    (apply_filters f side p q).2 ≤ max q f.min_qty := by
  have h2 : (apply_filters f side p q).2 =
      min (max (round_step q f.step_size) f.min_qty) f.max_qty := rfl
  rw [h2]
  have hm : is_step_multiple (round_step q f.step_size) f.step_size :=
    round_step_multiple q f.step_size hs
  have hle : round_step q f.step_size ≤ q := round_step_le q f.step_size hs
  refine ⟨is_step_multiple_min (is_step_multiple_max hm hmin) hmax,
    le_min (le_max_right _ _) hmm, min_le_right _ _, ?_⟩
  exact le_trans (min_le_left _ _) (max_le_max hle le_rfl)

/-- Witness for the amended C6 at aligned filters (step 1/10, bounds 1/10 and
100) and raw quantity 1/4, where the produced quantity is 1/5. -/
theorem C6_quantity_quantization_witness :
    0 < alignedFilters.step_size ∧
    is_step_multiple alignedFilters.min_qty alignedFilters.step_size ∧
    is_step_multiple alignedFilters.max_qty alignedFilters.step_size ∧
    alignedFilters.min_qty ≤ alignedFilters.max_qty ∧
    0 ≤ (1 / 4 : ℚ) ∧
    (apply_filters alignedFilters .buy 1 (1 / 4)).2 = 1 / 5 ∧
    (is_step_multiple (apply_filters alignedFilters .buy 1 (1 / 4)).2
        alignedFilters.step_size ∧
      alignedFilters.min_qty ≤ (apply_filters alignedFilters .buy 1 (1 / 4)).2 ∧
      (apply_filters alignedFilters .buy 1 (1 / 4)).2 ≤ alignedFilters.max_qty ∧
      (apply_filters alignedFilters .buy 1 (1 / 4)).2 ≤ max (1 / 4) alignedFilters.min_qty) :=
  ⟨by norm_num [alignedFilters], ⟨1, by norm_num [alignedFilters]⟩,
   ⟨1000, by norm_num [alignedFilters]⟩, by norm_num [alignedFilters], by norm_num,
   by norm_num [apply_filters, alignedFilters, round_step],
   C6_quantity_quantization_amended alignedFilters .buy 1 (1 / 4)
     (by norm_num [alignedFilters]) ⟨1, by norm_num [alignedFilters]⟩
     ⟨1000, by norm_num [alignedFilters]⟩ (by norm_num [alignedFilters]) (by norm_num)⟩

/-! ## C4: minimum notional -/

/-- C4 counterexample: with `min_notional = 10`, `step_size = 1`, price 3 and
quantity 2, the notional 6 is below 10, the inflated quantity `10/3` floors
to 3, and `_ensure_min_notional` returns 3 with notional `9 < 10` — no
failure occurs, refuting the claim that the stage either meets the minimum
notional or fails. -/
theorem C4_min_notional_counterexample :
    ensure_min_notional notionalFilters 3 2 = 3 ∧
    ¬ notionalFilters.min_notional ≤ 3 * ensure_min_notional notionalFilters 3 2 := by
  have h : ensure_min_notional notionalFilters 3 2 = 3 := by
    norm_num [ensure_min_notional, notionalFilters, round_step]
  exact ⟨h, by rw [h]; norm_num [notionalFilters]⟩

/-- C4 (amended): `_ensure_min_notional` never fails.  When the notional
already meets the minimum (within the `1e-12` tolerance) the quantity is
returned unchanged; otherwise the quantity is inflated to
`minNotional / price`, floored to the step and clamped, and the result is
only guaranteed to reach the minimum notional when the flooring is exact and
`maxQty` does not cap it (`price > 1e-12`,
`round_step (minNotional/price) = minNotional/price ≤ maxQty`). -/
theorem C4_min_notional_amended (f : SymbolFilters) (p q : ℚ) :
    (f.min_notional ≤ p * q + 1 / 10 ^ 12 → ensure_min_notional f p q = q) ∧
    (p * q + 1 / 10 ^ 12 < f.min_notional → 1 / 10 ^ 12 < p →
      round_step (f.min_notional / p) f.step_size = f.min_notional / p →
      f.min_notional / p ≤ f.max_qty →
      f.min_notional ≤ p * ensure_min_notional f p q) := by
  constructor
  · intro h
    rw [ensure_min_notional, if_pos h]
  · intro hlt hp hround hcap
    have hnot : ¬ f.min_notional ≤ p * q + 1 / 10 ^ 12 := not_le.mpr hlt
    have hmaxp : max p (1 / 10 ^ 12 : ℚ) = p := max_eq_left (le_of_lt hp)
    have hres : ensure_min_notional f p q =
        min (max (round_step (f.min_notional / p) f.step_size) f.min_qty) f.max_qty := by
      rw [ensure_min_notional, if_neg hnot, hmaxp]
    rw [hres, hround]
    have hp0 : 0 < p := lt_trans (by norm_num) hp
    have hneed : f.min_notional / p ≤ min (max (f.min_notional / p) f.min_qty) f.max_qty :=
      le_min (le_max_left _ _) hcap
    calc f.min_notional = f.min_notional / p * p := (div_mul_cancel₀ _ (ne_of_gt hp0)).symm
      _ = p * (f.min_notional / p) := mul_comm _ _
      _ ≤ p * min (max (f.min_notional / p) f.min_qty) f.max_qty :=
          mul_le_mul_of_nonneg_left hneed hp0.le

/-- Witness for the amended C4: the specification's scenario B (minNotional
10, price 2, quantity 3 inflating to 5 with notional exactly 10), plus the
unchanged-quantity branch at quantity 10. -/
theorem C4_min_notional_witness :
    ((2 : ℚ) * 3 + 1 / 10 ^ 12 < notionalFilters.min_notional ∧
     (1 / 10 ^ 12 : ℚ) < 2 ∧
     round_step (notionalFilters.min_notional / 2) notionalFilters.step_size =
       notionalFilters.min_notional / 2 ∧
     notionalFilters.min_notional / 2 ≤ notionalFilters.max_qty ∧
     notionalFilters.min_notional ≤ 2 * ensure_min_notional notionalFilters 2 3) ∧
    (notionalFilters.min_notional ≤ (2 : ℚ) * 10 + 1 / 10 ^ 12 ∧
     ensure_min_notional notionalFilters 2 10 = 10) :=
  ⟨⟨by norm_num [notionalFilters], by norm_num,
    by norm_num [notionalFilters, round_step], by norm_num [notionalFilters],
    (C4_min_notional_amended notionalFilters 2 3).2 (by norm_num [notionalFilters])
      (by norm_num) (by norm_num [notionalFilters, round_step])
      (by norm_num [notionalFilters])⟩,
   ⟨by norm_num [notionalFilters],
    (C4_min_notional_amended notionalFilters 2 10).1 (by norm_num [notionalFilters])⟩⟩

/-! ## C2: the covering-price finder -/

theorem cum_qty_le_cons (p q : ℚ) (rest : List (ℚ × ℚ)) (P : ℚ) :
    cum_qty_le ((p, q) :: rest) P = (if p ≤ P then q else 0) + cum_qty_le rest P := by
  by_cases hp : p ≤ P <;> simp [cum_qty_le, List.filter_cons, hp]

theorem cum_qty_le_nonneg (levels : List (ℚ × ℚ)) (P : ℚ)
    (hnn : ∀ l ∈ levels, 0 ≤ l.2) : 0 ≤ cum_qty_le levels P := by
  apply List.sum_nonneg
  intro x hx
  obtain ⟨l, hl, rfl⟩ := List.mem_map.mp hx
  exact hnn l (List.mem_of_mem_filter hl)

theorem cum_qty_le_eq_zero (levels : List (ℚ × ℚ)) (P : ℚ)
    (h : ∀ l ∈ levels, P < l.1) : cum_qty_le levels P = 0 := by
  have hnil : levels.filter (fun l => decide (l.1 ≤ P)) = [] :=
    List.filter_eq_nil_iff.mpr (by intro l hl; simpa using not_le.mpr (h l hl))
  simp [cum_qty_le, hnil]

theorem cum_qty_ge_cons (p q : ℚ) (rest : List (ℚ × ℚ)) (P : ℚ) :
    cum_qty_ge ((p, q) :: rest) P = (if P ≤ p then q else 0) + cum_qty_ge rest P := by
  by_cases hp : P ≤ p <;> simp [cum_qty_ge, List.filter_cons, hp]

theorem cum_qty_ge_nonneg (levels : List (ℚ × ℚ)) (P : ℚ)
    (hnn : ∀ l ∈ levels, 0 ≤ l.2) : 0 ≤ cum_qty_ge levels P := by
  apply List.sum_nonneg
  intro x hx
  obtain ⟨l, hl, rfl⟩ := List.mem_map.mp hx
  exact hnn l (List.mem_of_mem_filter hl)

theorem cum_qty_ge_eq_zero (levels : List (ℚ × ℚ)) (P : ℚ)
    (h : ∀ l ∈ levels, l.1 < P) : cum_qty_ge levels P = 0 := by
  have hnil : levels.filter (fun l => decide (P ≤ l.1)) = [] :=
    List.filter_eq_nil_iff.mpr (by intro l hl; simpa using not_le.mpr (h l hl))
  simp [cum_qty_ge, hnil]

/-- The scan is exhausted without covering the target exactly when the whole
depth (plus what was already accumulated) falls short of the target. -/
theorem cover_scan_eq_none_iff (Q : ℚ) :
    ∀ (levels : List (ℚ × ℚ)) (a : ℚ), (∀ l ∈ levels, 0 ≤ l.2) → a < Q →
      (cover_scan levels Q a = none ↔ a + (levels.map Prod.snd).sum < Q) := by
  intro levels
  induction levels with
  | nil => intro a _ ha; simpa [cover_scan] using ha
  | cons hd tl ih =>
    obtain ⟨p, q⟩ := hd
    intro a hnn ha
    have hnn_tl : ∀ l ∈ tl, 0 ≤ l.2 := fun l hl => hnn l (List.mem_cons_of_mem _ hl)
    by_cases h : Q ≤ a + q
    · have hs0 : 0 ≤ (tl.map Prod.snd).sum := by
        apply List.sum_nonneg
        intro x hx
        obtain ⟨l, hl, rfl⟩ := List.mem_map.mp hx
        exact hnn_tl l hl
      simp only [cover_scan, if_pos h, List.map_cons, List.sum_cons]
      exact iff_of_false (by simp) (by intro hlt; linarith)
    · have ha2 : a + q < Q := not_le.mp h
      simp only [cover_scan, if_neg h, List.map_cons, List.sum_cons]
      rw [ih (a + q) hnn_tl ha2]
      constructor <;> intro <;> linarith

/-- When the BUY scan over ascending-sorted, nonnegative-quantity levels
returns a price, that price is the price of some level, the cumulative depth
at or below it (plus the accumulator) covers the target, and it is the lowest
such price. -/
theorem cover_scan_spec_buy (Q : ℚ) :
    ∀ (levels : List (ℚ × ℚ)) (a P : ℚ),
      List.Pairwise (fun l m : ℚ × ℚ => l.1 ≤ m.1) levels →
      (∀ l ∈ levels, 0 ≤ l.2) → a < Q →
      cover_scan levels Q a = some P →
      (∃ l ∈ levels, l.1 = P) ∧ Q ≤ a + cum_qty_le levels P ∧
        ∀ R, Q ≤ a + cum_qty_le levels R → P ≤ R := by
  intro levels
  induction levels with
  | nil => intro a P _ _ _ h; simp [cover_scan] at h
  | cons hd tl ih =>
    obtain ⟨p, q⟩ := hd
    intro a P hsort hnn ha hscan
    obtain ⟨hhead, htl⟩ := List.pairwise_cons.mp hsort
    have hnn_tl : ∀ l ∈ tl, 0 ≤ l.2 := fun l hl => hnn l (List.mem_cons_of_mem _ hl)
    by_cases hcond : Q ≤ a + q
    · have hP : P = p := by
        simp only [cover_scan, if_pos hcond] at hscan
        exact (Option.some_inj.mp hscan).symm
      subst hP
      refine ⟨⟨(P, q), List.mem_cons_self _ _, rfl⟩, ?_, ?_⟩
      · rw [cum_qty_le_cons, if_pos le_rfl]
        have h0 : 0 ≤ cum_qty_le tl P := cum_qty_le_nonneg tl P hnn_tl
        linarith
      · intro R hR
        by_contra hRp
        push_neg at hRp
        have hzero : cum_qty_le ((P, q) :: tl) R = 0 := by
          apply cum_qty_le_eq_zero
          intro l hl
          rcases List.mem_cons.mp hl with rfl | hl2
          · exact hRp
          · exact lt_of_lt_of_le hRp (hhead l hl2)
        rw [hzero] at hR
        linarith
    · simp only [cover_scan, if_neg hcond] at hscan
      have ha2 : a + q < Q := not_le.mp hcond
      obtain ⟨⟨l0, hl0, hl0P⟩, hcov, hmin⟩ := ih (a + q) P htl hnn_tl ha2 hscan
      have hpP : p ≤ P := hl0P ▸ hhead l0 hl0
      refine ⟨⟨l0, List.mem_cons_of_mem _ hl0, hl0P⟩, ?_, ?_⟩
      · rw [cum_qty_le_cons, if_pos hpP]
        linarith
      · intro R hR
        by_cases hpR : p ≤ R
        · rw [cum_qty_le_cons, if_pos hpR] at hR
          exact hmin R (by linarith)
        · exfalso
          push_neg at hpR
          have hzero : cum_qty_le ((p, q) :: tl) R = 0 := by
            apply cum_qty_le_eq_zero
            intro l hl
            rcases List.mem_cons.mp hl with rfl | hl2
            · exact hpR
            · exact lt_of_lt_of_le hpR (hhead l hl2)
          rw [hzero] at hR
          linarith

/-- Mirror of `cover_scan_spec_buy` for the SELL side: over
descending-sorted, nonnegative-quantity bid levels the scan returns the
highest price whose at-or-above cumulative depth covers the target. -/
theorem cover_scan_spec_sell (Q : ℚ) :
    ∀ (levels : List (ℚ × ℚ)) (a P : ℚ),
      List.Pairwise (fun l m : ℚ × ℚ => m.1 ≤ l.1) levels →
      (∀ l ∈ levels, 0 ≤ l.2) → a < Q →
      cover_scan levels Q a = some P →
      (∃ l ∈ levels, l.1 = P) ∧ Q ≤ a + cum_qty_ge levels P ∧
        ∀ R, Q ≤ a + cum_qty_ge levels R → R ≤ P := by
  intro levels
  induction levels with
  | nil => intro a P _ _ _ h; simp [cover_scan] at h
  | cons hd tl ih =>
    obtain ⟨p, q⟩ := hd
    intro a P hsort hnn ha hscan
    obtain ⟨hhead, htl⟩ := List.pairwise_cons.mp hsort
    have hnn_tl : ∀ l ∈ tl, 0 ≤ l.2 := fun l hl => hnn l (List.mem_cons_of_mem _ hl)
    by_cases hcond : Q ≤ a + q
    · have hP : P = p := by
        simp only [cover_scan, if_pos hcond] at hscan
        exact (Option.some_inj.mp hscan).symm
      subst hP
      refine ⟨⟨(P, q), List.mem_cons_self _ _, rfl⟩, ?_, ?_⟩
      · rw [cum_qty_ge_cons, if_pos le_rfl]
        have h0 : 0 ≤ cum_qty_ge tl P := cum_qty_ge_nonneg tl P hnn_tl
        linarith
      · intro R hR
        by_contra hRp
        push_neg at hRp
        have hzero : cum_qty_ge ((P, q) :: tl) R = 0 := by
          apply cum_qty_ge_eq_zero
          intro l hl
          rcases List.mem_cons.mp hl with rfl | hl2
          · exact hRp
          · exact lt_of_le_of_lt (hhead l hl2) hRp
        rw [hzero] at hR
        linarith
    · simp only [cover_scan, if_neg hcond] at hscan
      have ha2 : a + q < Q := not_le.mp hcond
      obtain ⟨⟨l0, hl0, hl0P⟩, hcov, hmin⟩ := ih (a + q) P htl hnn_tl ha2 hscan
      have hpP : P ≤ p := hl0P ▸ hhead l0 hl0
      refine ⟨⟨l0, List.mem_cons_of_mem _ hl0, hl0P⟩, ?_, ?_⟩
      · rw [cum_qty_ge_cons, if_pos hpP]
        linarith
      · intro R hR
        by_cases hpR : R ≤ p
        · rw [cum_qty_ge_cons, if_pos hpR] at hR
          exact hmin R (by linarith)
        · exfalso
          push_neg at hpR
          have hzero : cum_qty_ge ((p, q) :: tl) R = 0 := by
            apply cum_qty_ge_eq_zero
            intro l hl
            rcases List.mem_cons.mp hl with rfl | hl2
            · exact hpR
            · exact lt_of_le_of_lt (hhead l hl2) hpR
          rw [hzero] at hR
          linarith

/-- C2: over ask levels sorted by ascending price with nonnegative
quantities and a target `Q > 0`, when total ask depth reaches `Q` the
covering-price finder returns the lowest ask price whose at-or-below
cumulative depth covers `Q`, and fails (raises `ValueError`, modelled as
`none`) when total depth — including an empty ask side — is below `Q`; the
symmetric property holds for SELL over descending-sorted bids, returning the
highest covering bid price. -/
theorem C2_covering_price_minimal (book : OrderBook) (Q : ℚ) (hQ : 0 < Q) :
    (List.Pairwise (fun l m : ℚ × ℚ => l.1 ≤ m.1) book.asks →
     (∀ l ∈ book.asks, 0 ≤ l.2) →
     ((Q ≤ (book.asks.map Prod.snd).sum →
        ∃ P, price_to_fill_full_qty book .buy Q = some P ∧ (∃ l ∈ book.asks, l.1 = P) ∧
          Q ≤ cum_qty_le book.asks P ∧ ∀ R, Q ≤ cum_qty_le book.asks R → P ≤ R) ∧
      ((book.asks.map Prod.snd).sum < Q → price_to_fill_full_qty book .buy Q = none))) ∧
    (List.Pairwise (fun l m : ℚ × ℚ => m.1 ≤ l.1) book.bids →
     (∀ l ∈ book.bids, 0 ≤ l.2) →
     ((Q ≤ (book.bids.map Prod.snd).sum →
        ∃ P, price_to_fill_full_qty book .sell Q = some P ∧ (∃ l ∈ book.bids, l.1 = P) ∧
          Q ≤ cum_qty_ge book.bids P ∧ ∀ R, Q ≤ cum_qty_ge book.bids R → R ≤ P) ∧
      ((book.bids.map Prod.snd).sum < Q → price_to_fill_full_qty book .sell Q = none))) := by
  have hbuy : price_to_fill_full_qty book .buy Q = cover_scan book.asks Q 0 := rfl
  have hsell : price_to_fill_full_qty book .sell Q = cover_scan book.bids Q 0 := rfl
  constructor
  · intro hsort hnn
    constructor
    · intro hdepth
      have hne : cover_scan book.asks Q 0 ≠ none := by
        intro hnone
        have h1 := (cover_scan_eq_none_iff Q book.asks 0 hnn hQ).mp hnone
        rw [zero_add] at h1
        exact absurd h1 (not_lt.mpr hdepth)
      obtain ⟨P, hP⟩ := Option.ne_none_iff_exists'.mp hne
      obtain ⟨hmem, hcov, hmin⟩ := cover_scan_spec_buy Q book.asks 0 P hsort hnn hQ hP
      rw [zero_add] at hcov
      exact ⟨P, hbuy ▸ hP, hmem, hcov, fun R hR => hmin R (by rw [zero_add]; exact hR)⟩
    · intro hlt
      rw [hbuy]
      exact (cover_scan_eq_none_iff Q book.asks 0 hnn hQ).mpr (by rw [zero_add]; exact hlt)
  · intro hsort hnn
    constructor
    · intro hdepth
      have hne : cover_scan book.bids Q 0 ≠ none := by
        intro hnone
        have h1 := (cover_scan_eq_none_iff Q book.bids 0 hnn hQ).mp hnone
        rw [zero_add] at h1
        exact absurd h1 (not_lt.mpr hdepth)
      obtain ⟨P, hP⟩ := Option.ne_none_iff_exists'.mp hne
      obtain ⟨hmem, hcov, hmin⟩ := cover_scan_spec_sell Q book.bids 0 P hsort hnn hQ hP
      rw [zero_add] at hcov
      exact ⟨P, hsell ▸ hP, hmem, hcov, fun R hR => hmin R (by rw [zero_add]; exact hR)⟩
    · intro hlt
      rw [hsell]
      exact (cover_scan_eq_none_iff Q book.bids 0 hnn hQ).mpr (by rw [zero_add]; exact hlt)

/-- Witness for C2 on the specification's scenario A: asks of 100 units at
10.00 and 50 at 10.01, target 120; the covering price is 10.01 and it is
minimal. -/
theorem C2_covering_price_witness :
    0 < (120 : ℚ) ∧
    List.Pairwise (fun l m : ℚ × ℚ => l.1 ≤ m.1) scenarioABook.asks ∧
    (∀ l ∈ scenarioABook.asks, 0 ≤ l.2) ∧
    (120 : ℚ) ≤ (scenarioABook.asks.map Prod.snd).sum ∧
    price_to_fill_full_qty scenarioABook .buy 120 = some (1001 / 100) ∧
    (∃ P, price_to_fill_full_qty scenarioABook .buy 120 = some P ∧
      (∃ l ∈ scenarioABook.asks, l.1 = P) ∧
      (120 : ℚ) ≤ cum_qty_le scenarioABook.asks P ∧
      ∀ R, (120 : ℚ) ≤ cum_qty_le scenarioABook.asks R → P ≤ R) :=
  ⟨by norm_num, by norm_num [scenarioABook], by norm_num [scenarioABook],
   by norm_num [scenarioABook],
   by norm_num [scenarioABook, price_to_fill_full_qty, cover_scan],
   (((C2_covering_price_minimal scenarioABook 120 (by norm_num)).1
       (by norm_num [scenarioABook]) (by norm_num [scenarioABook])).1
     (by norm_num [scenarioABook]))⟩

/-! ## The retry loop: structural lemmas -/

/-- Case analysis of one loop iteration: the liquidity walk fails (nothing
logged, no filter fetch, only the book fetch recorded), or the attempt
reaches submission — fetching the filters exactly twice — and then either
fills, breaks on the drift budget, or consumes the bump and continues. -/
theorem fok_attempt_cases (c : Client) (cfg : FokConfig) (side : Side) (quantity : ℚ)
    (attempt : ℕ) (st : RunState) :
    (fok_attempt c cfg side quantity attempt st =
        .halt .insufficientLiquidity .liquidityAbort []
          { st with bookFetches := st.bookFetches + 1 }) ∨
    (∃ o a st1, fok_attempt c cfg side quantity attempt st =
        .halt (.filledOrder o) .filledOk [a] st1 ∧
      a.err = none ∧ a.driftBefore = st.total_drift_bps ∧
      a.driftAfter = st.total_drift_bps ∧ a.slept = false ∧
      st1.total_drift_bps = st.total_drift_bps ∧
      st1.filterFetches = st.filterFetches + 2 ∧
      st1.bookFetches = st.bookFetches + 1 ∧
      st1.last_err = st.last_err) ∨
    (∃ e a st1, fok_attempt c cfg side quantity attempt st =
        .halt (.raisedLast e) .budgetAbort [a] st1 ∧
      a.err = some e ∧ a.driftBefore = st.total_drift_bps ∧
      a.driftAfter = st.total_drift_bps ∧ a.slept = false ∧
      cfg.max_total_drift_bps < st.total_drift_bps + cfg.per_attempt_drift_bps ∧
      st1.total_drift_bps = st.total_drift_bps ∧
      st1.filterFetches = st.filterFetches + 2 ∧
      st1.bookFetches = st.bookFetches + 1 ∧
      st1.last_err = some e) ∨
    (∃ e a st1, fok_attempt c cfg side quantity attempt st = .cont a st1 ∧
      a.err = some e ∧ a.driftBefore = st.total_drift_bps ∧
      a.driftAfter = st.total_drift_bps + cfg.per_attempt_drift_bps ∧ a.slept = true ∧
      ¬ cfg.max_total_drift_bps < st.total_drift_bps + cfg.per_attempt_drift_bps ∧
      st1.total_drift_bps = st.total_drift_bps + cfg.per_attempt_drift_bps ∧
      st1.filterFetches = st.filterFetches + 2 ∧
      st1.bookFetches = st.bookFetches + 1 ∧
      st1.last_err = some e) := by
  unfold fok_attempt
  split
  · exact Or.inl rfl
  · dsimp only
    split
    · next o heq =>
        exact Or.inr (Or.inl ⟨o, _, _, rfl, rfl, rfl, rfl, rfl, rfl, rfl, rfl, rfl⟩)
    · next e heq =>
        split
        · next hbud =>
            exact Or.inr (Or.inr (Or.inl
              ⟨e, _, _, rfl, rfl, rfl, rfl, rfl, hbud, rfl, rfl, rfl, rfl⟩))
        · next hbud =>
            exact Or.inr (Or.inr (Or.inr
              ⟨e, _, _, rfl, rfl, rfl, rfl, rfl, hbud, rfl, rfl, rfl, rfl⟩))

/-- Drift bookkeeping along the trace: the first logged attempt starts at the
incoming `total_drift_bps`, consecutive logs chain exactly, each rejected
attempt either consumes exactly one bump (and sleeps) or — when the bump
would exceed the budget — consumes nothing, and the final state's
`total_drift_bps` is the last log's after-value. -/
theorem fok_loop_drift_structure (c : Client) (cfg : FokConfig) (side : Side) (q : ℚ) :
    ∀ (fuel attempt : ℕ) (st : RunState),
      (∀ a, (fok_loop c cfg side q fuel attempt st).trace.head? = some a →
        a.driftBefore = st.total_drift_bps) ∧
      List.Chain' (fun a b => a.driftAfter = b.driftBefore)
        (fok_loop c cfg side q fuel attempt st).trace ∧
      (∀ a ∈ (fok_loop c cfg side q fuel attempt st).trace,
        (a.err = none → a.driftAfter = a.driftBefore ∧ a.slept = false) ∧
        (∀ e, a.err = some e →
          (cfg.max_total_drift_bps < a.driftBefore + cfg.per_attempt_drift_bps →
            a.driftAfter = a.driftBefore ∧ a.slept = false) ∧
          (¬ cfg.max_total_drift_bps < a.driftBefore + cfg.per_attempt_drift_bps →
            a.driftAfter = a.driftBefore + cfg.per_attempt_drift_bps ∧ a.slept = true))) ∧
      (fok_loop c cfg side q fuel attempt st).finalState.total_drift_bps =
        (((fok_loop c cfg side q fuel attempt st).trace.getLast?).map
            AttemptLog.driftAfter).getD st.total_drift_bps := by
  intro fuel
  induction fuel with
  | zero =>
    intro attempt st
    cases h : st.last_err <;> simp [fok_loop, h]
  | succ n ih =>
    intro attempt st
    rcases fok_attempt_cases c cfg side q attempt st with hliq |
      ⟨o, a, st1, heq, herr, hdB, hdA, hslept, htot, hff, hbf, hle⟩ |
      ⟨e, a, st1, heq, herr, hdB, hdA, hslept, hbud, htot, hff, hbf, hle⟩ |
      ⟨e, a, st1, heq, herr, hdB, hdA, hslept, hbud, htot, hff, hbf, hle⟩
    · simp [fok_loop, hliq]
    · simp only [fok_loop, heq]
      refine ⟨?_, ?_, ?_, ?_⟩
      · intro a0 ha0
        simp only [List.head?_cons, Option.some.injEq] at ha0
        rw [← ha0]; exact hdB
      · simp
      · intro a0 ha0
        simp only [List.mem_singleton] at ha0
        subst ha0
        refine ⟨fun _ => ⟨hdA.trans hdB.symm, hslept⟩, fun e0 he0 => ?_⟩
        rw [herr] at he0
        cases he0
      · simp [htot, hdA]
    · simp only [fok_loop, heq]
      refine ⟨?_, ?_, ?_, ?_⟩
      · intro a0 ha0
        simp only [List.head?_cons, Option.some.injEq] at ha0
        rw [← ha0]; exact hdB
      · simp
      · intro a0 ha0
        simp only [List.mem_singleton] at ha0
        subst ha0
        refine ⟨fun hnone => ?_, fun e0 he0 => ?_⟩
        · rw [herr] at hnone; cases hnone
        · refine ⟨fun _ => ⟨hdA.trans hdB.symm, hslept⟩, fun hn => ?_⟩
          rw [hdB] at hn
          exact absurd hbud hn
      · simp [htot, hdA]
    · simp only [fok_loop, heq]
      obtain ⟨ih1, ih2, ih3, ih4⟩ := ih (attempt + 1) st1
      refine ⟨?_, ?_, ?_, ?_⟩
      · intro a0 ha0
        simp only [List.head?_cons, Option.some.injEq] at ha0
        rw [← ha0]; exact hdB
      · refine List.chain'_cons'.mpr ⟨?_, ih2⟩
        intro b hb
        rw [hdA, ih1 b (Option.mem_def.mp hb), htot]
      · intro a0 ha0
        rcases List.mem_cons.mp ha0 with rfl | h0
        · refine ⟨fun hnone => ?_, fun e0 he0 => ?_⟩
          · rw [herr] at hnone; cases hnone
          · refine ⟨fun hex => ?_, fun _ => ⟨by rw [hdA, hdB], hslept⟩⟩
            rw [hdB] at hex
            exact absurd hex hbud
        · exact ih3 a0 h0
      · cases htr : (fok_loop c cfg side q n (attempt + 1) st1).trace with
        | nil =>
          rw [htr] at ih4
          simp only [List.getLast?_nil, Option.map_none', Option.getD_none] at ih4
          simp [htr, ih4, htot, hdA]
        | cons b tb =>
          rw [htr] at ih4
          obtain ⟨x, hx⟩ := Option.isSome_iff_exists.mp
            (List.getLast?_isSome.mpr (List.cons_ne_nil b tb))
          rw [hx] at ih4
          simp only [Option.map_some', Option.getD_some] at ih4
          simp [htr, List.getLast?_cons_cons, hx, ih4]

/-- Budget safety: when the per-attempt bump is nonnegative and the incoming
total is within the budget, every logged drift value stays within
`max_total_drift_bps` and so does the final total. -/
theorem fok_loop_drift_le (c : Client) (cfg : FokConfig) (side : Side) (q : ℚ)
    (hb : 0 ≤ cfg.per_attempt_drift_bps) :
    ∀ (fuel attempt : ℕ) (st : RunState),
      st.total_drift_bps ≤ cfg.max_total_drift_bps →
      (∀ a ∈ (fok_loop c cfg side q fuel attempt st).trace,
        a.driftBefore ≤ a.driftAfter ∧
        a.driftBefore ≤ cfg.max_total_drift_bps ∧
        a.driftAfter ≤ cfg.max_total_drift_bps) ∧
      (fok_loop c cfg side q fuel attempt st).finalState.total_drift_bps ≤
        cfg.max_total_drift_bps := by
  intro fuel
  induction fuel with
  | zero =>
    intro attempt st hst
    cases h : st.last_err <;> simp [fok_loop, h, hst]
  | succ n ih =>
    intro attempt st hst
    rcases fok_attempt_cases c cfg side q attempt st with hliq |
      ⟨o, a, st1, heq, herr, hdB, hdA, hslept, htot, hff, hbf, hle⟩ |
      ⟨e, a, st1, heq, herr, hdB, hdA, hslept, hbud, htot, hff, hbf, hle⟩ |
      ⟨e, a, st1, heq, herr, hdB, hdA, hslept, hbud, htot, hff, hbf, hle⟩
    · simp [fok_loop, hliq, hst]
    · simp only [fok_loop, heq]
      refine ⟨?_, by rw [htot]; exact hst⟩
      intro a0 ha0
      simp only [List.mem_singleton] at ha0
      subst ha0
      exact ⟨by rw [hdA, hdB], by rw [hdB]; exact hst, by rw [hdA]; exact hst⟩
    · simp only [fok_loop, heq]
      refine ⟨?_, by rw [htot]; exact hst⟩
      intro a0 ha0
      simp only [List.mem_singleton] at ha0
      subst ha0
      exact ⟨by rw [hdA, hdB], by rw [hdB]; exact hst, by rw [hdA]; exact hst⟩
    · have hst1 : st1.total_drift_bps ≤ cfg.max_total_drift_bps := by
        rw [htot]; exact not_lt.mp hbud
      obtain ⟨ih1, ih2⟩ := ih (attempt + 1) st1 hst1
      simp only [fok_loop, heq]
      refine ⟨?_, ih2⟩
      intro a0 ha0
      rcases List.mem_cons.mp ha0 with rfl | h0
      · refine ⟨by rw [hdA, hdB]; linarith, by rw [hdB]; exact hst, ?_⟩
        rw [hdA]
        exact not_lt.mp hbud
      · exact ih1 a0 h0

/-- When a logged attempt was rejected and its bump would exceed the budget,
the loop stopped right there: that log entry is the last one, the exit path
is the drift-budget `break`, and the rejected attempt's error is re-raised. -/
theorem fok_loop_budget_abort (c : Client) (cfg : FokConfig) (side : Side) (q : ℚ) :
    ∀ (fuel attempt : ℕ) (st : RunState),
      ∀ a ∈ (fok_loop c cfg side q fuel attempt st).trace, ∀ e, a.err = some e →
        cfg.max_total_drift_bps < a.driftBefore + cfg.per_attempt_drift_bps →
        (fok_loop c cfg side q fuel attempt st).reason = .budgetAbort ∧
        (fok_loop c cfg side q fuel attempt st).trace.getLast? = some a ∧
        (fok_loop c cfg side q fuel attempt st).result = .raisedLast e := by
  intro fuel
  induction fuel with
  | zero =>
    intro attempt st
    cases h : st.last_err <;> simp [fok_loop, h]
  | succ n ih =>
    intro attempt st
    rcases fok_attempt_cases c cfg side q attempt st with hliq |
      ⟨o, a, st1, heq, herr, hdB, hdA, hslept, htot, hff, hbf, hle⟩ |
      ⟨e, a, st1, heq, herr, hdB, hdA, hslept, hbud, htot, hff, hbf, hle⟩ |
      ⟨e, a, st1, heq, herr, hdB, hdA, hslept, hbud, htot, hff, hbf, hle⟩
    · simp [fok_loop, hliq]
    · simp only [fok_loop, heq]
      intro a0 ha0 e0 he0 _
      simp only [List.mem_singleton] at ha0
      subst ha0
      rw [herr] at he0
      cases he0
    · simp only [fok_loop, heq]
      intro a0 ha0 e0 he0 _
      simp only [List.mem_singleton] at ha0
      subst ha0
      rw [herr] at he0
      obtain rfl := Option.some_inj.mp he0
      exact ⟨trivial, rfl, rfl⟩
    · simp only [fok_loop, heq]
      intro a0 ha0 e0 he0 hex
      rcases List.mem_cons.mp ha0 with rfl | h0
      · rw [hdB] at hex
        exact absurd hex hbud
      · obtain ⟨hreason, hlast, hres⟩ := ih (attempt + 1) st1 a0 h0 e0 he0 hex
        refine ⟨hreason, ?_, hres⟩
        have hne : (fok_loop c cfg side q n (attempt + 1) st1).trace ≠ [] :=
          List.ne_nil_of_mem h0
        cases htr : (fok_loop c cfg side q n (attempt + 1) st1).trace with
        | nil => exact absurd htr hne
        | cons b tb =>
          rw [htr] at hlast
          simp only [List.getLast?_cons_cons, htr]
          exact hlast

/-- Filter-fetch accounting: every submitted attempt fetches the symbol
filters exactly twice (once in `_apply_filters`, once in
`_ensure_min_notional`), so the final fetch count is the incoming count plus
twice the number of logged attempts. -/
theorem fok_loop_filter_fetches (c : Client) (cfg : FokConfig) (side : Side) (q : ℚ) :
    ∀ (fuel attempt : ℕ) (st : RunState),
      (fok_loop c cfg side q fuel attempt st).finalState.filterFetches =
        st.filterFetches + 2 * (fok_loop c cfg side q fuel attempt st).trace.length := by
  intro fuel
  induction fuel with
  | zero =>
    intro attempt st
    cases h : st.last_err <;> simp [fok_loop, h]
  | succ n ih =>
    intro attempt st
    rcases fok_attempt_cases c cfg side q attempt st with hliq |
      ⟨o, a, st1, heq, herr, hdB, hdA, hslept, htot, hff, hbf, hle⟩ |
      ⟨e, a, st1, heq, herr, hdB, hdA, hslept, hbud, htot, hff, hbf, hle⟩ |
      ⟨e, a, st1, heq, herr, hdB, hdA, hslept, hbud, htot, hff, hbf, hle⟩
    · simp [fok_loop, hliq]
    · simp only [fok_loop, heq, List.length_singleton]
      rw [hff]
    · simp only [fok_loop, heq, List.length_singleton]
      rw [hff]
    · simp only [fok_loop, heq, List.length_cons]
      rw [ih (attempt + 1) st1, hff]
      ring

/-- Error propagation: the `RuntimeError` fallback fires only when no attempt
was logged and no error had been recorded, and a `raise last_err` exit always
re-raises the error of the last logged attempt (or the incoming recorded
error when nothing was logged). -/
theorem fok_loop_result_paths (c : Client) (cfg : FokConfig) (side : Side) (q : ℚ) :
    ∀ (fuel attempt : ℕ) (st : RunState),
      ((fok_loop c cfg side q fuel attempt st).result = .runtimeError →
        (fok_loop c cfg side q fuel attempt st).trace = [] ∧ st.last_err = none) ∧
      (∀ e, (fok_loop c cfg side q fuel attempt st).result = .raisedLast e →
        (((fok_loop c cfg side q fuel attempt st).trace.getLast?).map
            AttemptLog.err = some (some e)) ∨
        ((fok_loop c cfg side q fuel attempt st).trace = [] ∧ st.last_err = some e)) := by
  intro fuel
  induction fuel with
  | zero =>
    intro attempt st
    cases h : st.last_err with
    | none => simp [fok_loop, h]
    | some e0 =>
      constructor
      · intro hres
        simp [fok_loop, h] at hres
      · intro e heq
        simp only [fok_loop, h, FokResult.raisedLast.injEq] at heq
        subst heq
        exact Or.inr ⟨by simp [fok_loop, h], rfl⟩
  | succ n ih =>
    intro attempt st
    rcases fok_attempt_cases c cfg side q attempt st with hliq |
      ⟨o, a, st1, heq, herr, hdB, hdA, hslept, htot, hff, hbf, hle⟩ |
      ⟨e, a, st1, heq, herr, hdB, hdA, hslept, hbud, htot, hff, hbf, hle⟩ |
      ⟨e, a, st1, heq, herr, hdB, hdA, hslept, hbud, htot, hff, hbf, hle⟩
    · simp [fok_loop, hliq]
    · simp [fok_loop, heq]
    · simp only [fok_loop, heq]
      constructor
      · intro hres
        cases hres
      · intro e0 he0
        obtain rfl := FokResult.raisedLast.injEq .. ▸ he0
        left
        simp only [List.getLast?_singleton, Option.map_some', Option.some.injEq]
        exact herr
    · simp only [fok_loop, heq]
      obtain ⟨ihA, ihB⟩ := ih (attempt + 1) st1
      constructor
      · intro hres
        have h2 := (ihA hres).2
        rw [hle] at h2
        cases h2
      · intro e0 he0
        rcases ihB e0 he0 with hL | ⟨htr, hl⟩
        · left
          cases htr2 : (fok_loop c cfg side q n (attempt + 1) st1).trace with
          | nil => rw [htr2] at hL; simp at hL
          | cons b tb =>
            rw [htr2] at hL
            simpa only [List.getLast?_cons_cons] using hL
        · left
          rw [htr]
          rw [hle] at hl
          obtain rfl := Option.some_inj.mp hl
          simp only [List.getLast?_singleton, Option.map_some', Option.some.injEq]
          exact herr

theorem fok_attempt_liquidity (c : Client) (cfg : FokConfig) (side : Side) (q : ℚ)
    (attempt : ℕ) (st : RunState)
    (hpf : price_to_fill_full_qty (c.book st.bookFetches) side q = none) :
    fok_attempt c cfg side q attempt st =
      .halt .insufficientLiquidity .liquidityAbort []
        { st with bookFetches := st.bookFetches + 1 } := by
  unfold fok_attempt
  rw [hpf]

theorem fok_loop_liquidity (c : Client) (cfg : FokConfig) (side : Side) (q : ℚ)
    (fuel attempt : ℕ) (st : RunState)
    (hpf : price_to_fill_full_qty (c.book st.bookFetches) side q = none) :
    fok_loop c cfg side q (fuel + 1) attempt st =
      ⟨.insufficientLiquidity, .liquidityAbort, [],
       { st with bookFetches := st.bookFetches + 1 }⟩ := by
  simp [fok_loop, fok_attempt_liquidity c cfg side q attempt st hpf]

/-! ## C5: insufficient liquidity aborts immediately -/

/-- C5: whenever the order book fetched for an attempt cannot cover the
target quantity, the iteration halts the whole execution at once with the
liquidity `ValueError`: nothing is logged or submitted on that attempt, the
drift total is left exactly as it was, and no further iterations run.  In
particular (scenario D) when the very first book is short, the execution ends
with zero drift consumed, a single book fetch, and no filter fetches. -/
theorem C5_insufficient_liquidity_aborts (c : Client) (cfg : FokConfig) (side : Side)
    (q : ℚ) :
    (∀ (fuel attempt : ℕ) (st : RunState),
      price_to_fill_full_qty (c.book st.bookFetches) side q = none →
      fok_loop c cfg side q (fuel + 1) attempt st =
        ⟨.insufficientLiquidity, .liquidityAbort, [],
         { st with bookFetches := st.bookFetches + 1 }⟩) ∧
    (1 ≤ cfg.max_retries →
      price_to_fill_full_qty (c.book 0) side q = none →
      (place_limit_order_fok_with_retries c cfg side q).result = .insufficientLiquidity ∧
      (place_limit_order_fok_with_retries c cfg side q).reason = .liquidityAbort ∧
      (place_limit_order_fok_with_retries c cfg side q).trace = [] ∧
      (place_limit_order_fok_with_retries c cfg side q).finalState.total_drift_bps = 0 ∧
      (place_limit_order_fok_with_retries c cfg side q).finalState.bookFetches = 1 ∧
      (place_limit_order_fok_with_retries c cfg side q).finalState.filterFetches = 0) := by
  refine ⟨fun fuel attempt st hpf => fok_loop_liquidity c cfg side q fuel attempt st hpf, ?_⟩
  intro hmr hpf
  have hm : cfg.max_retries.toNat = (cfg.max_retries.toNat - 1) + 1 := by omega
  have h0 := fok_loop_liquidity c cfg side q (cfg.max_retries.toNat - 1) 1
    ⟨none, 0, none, 0, 0⟩ hpf
  simp only [place_limit_order_fok_with_retries]
  rw [hm, h0]
  exact ⟨rfl, rfl, rfl, rfl, rfl, rfl⟩

/-- Witness for C5: an always-empty book with three allowed retries aborts on
the first attempt with the liquidity failure and zero drift. -/
theorem C5_insufficient_liquidity_witness :
    price_to_fill_full_qty (emptyBookClient.book 0) .buy 5 = none ∧
    1 ≤ cfgTwoRetries.max_retries ∧
    fok_loop emptyBookClient cfgTwoRetries .buy 5 1 1 ⟨none, 0, none, 0, 0⟩ =
      ⟨.insufficientLiquidity, .liquidityAbort, [], ⟨none, 0, none, 0, 1⟩⟩ ∧
    ((place_limit_order_fok_with_retries emptyBookClient cfgTwoRetries .buy 5).result =
        .insufficientLiquidity ∧
      (place_limit_order_fok_with_retries emptyBookClient cfgTwoRetries .buy 5).reason =
        .liquidityAbort ∧
      (place_limit_order_fok_with_retries emptyBookClient cfgTwoRetries .buy 5).trace = [] ∧
      (place_limit_order_fok_with_retries emptyBookClient cfgTwoRetries
          .buy 5).finalState.total_drift_bps = 0 ∧
      (place_limit_order_fok_with_retries emptyBookClient cfgTwoRetries
          .buy 5).finalState.bookFetches = 1 ∧
      (place_limit_order_fok_with_retries emptyBookClient cfgTwoRetries
          .buy 5).finalState.filterFetches = 0) :=
  ⟨rfl, by norm_num [cfgTwoRetries],
   (C5_insufficient_liquidity_aborts emptyBookClient cfgTwoRetries .buy 5).1 0 1
     ⟨none, 0, none, 0, 0⟩ rfl,
   (C5_insufficient_liquidity_aborts emptyBookClient cfgTwoRetries .buy 5).2
     (by norm_num [cfgTwoRetries]) rfl⟩

/-! ## C3: the drift budget invariant -/

/-- C3: with nonnegative configuration, the consumed drift starts at 0,
chains monotonically through the attempts, never exceeds
`max_total_drift_bps` at any point (neither before nor after any attempt, nor
in the final state), and an attempt whose rejected bump would exceed the
budget is the last one: the loop exits through the drift-budget `break`
instead of starting another attempt. -/
theorem C3_drift_budget_invariant (c : Client) (cfg : FokConfig) (side : Side) (q : ℚ)
    (hb : 0 ≤ cfg.per_attempt_drift_bps) (hm : 0 ≤ cfg.max_total_drift_bps) :
    (∀ a, (place_limit_order_fok_with_retries c cfg side q).trace.head? = some a →
      a.driftBefore = 0) ∧
    List.Chain' (fun a b => a.driftAfter = b.driftBefore)
      (place_limit_order_fok_with_retries c cfg side q).trace ∧
    (∀ a ∈ (place_limit_order_fok_with_retries c cfg side q).trace,
      a.driftBefore ≤ a.driftAfter ∧ a.driftBefore ≤ cfg.max_total_drift_bps ∧
      a.driftAfter ≤ cfg.max_total_drift_bps) ∧
    (place_limit_order_fok_with_retries c cfg side q).finalState.total_drift_bps ≤
      cfg.max_total_drift_bps ∧
    (∀ a ∈ (place_limit_order_fok_with_retries c cfg side q).trace, ∀ e, a.err = some e →
      cfg.max_total_drift_bps < a.driftBefore + cfg.per_attempt_drift_bps →
      (place_limit_order_fok_with_retries c cfg side q).reason = .budgetAbort ∧
      (place_limit_order_fok_with_retries c cfg side q).trace.getLast? = some a ∧
      (place_limit_order_fok_with_retries c cfg side q).result = .raisedLast e) := by
  simp only [place_limit_order_fok_with_retries]
  obtain ⟨h1, h2, _h3, _h4⟩ :=
    fok_loop_drift_structure c cfg side q cfg.max_retries.toNat 1 ⟨none, 0, none, 0, 0⟩
  obtain ⟨h5, h6⟩ :=
    fok_loop_drift_le c cfg side q hb cfg.max_retries.toNat 1 ⟨none, 0, none, 0, 0⟩ hm
  exact ⟨h1, h2, h5, h6,
    fok_loop_budget_abort c cfg side q cfg.max_retries.toNat 1 ⟨none, 0, none, 0, 0⟩⟩

/-- Witness for C3 on a client whose submissions are always rejected, with 2
retries, 2 bps per attempt and a 20 bps ceiling. -/
theorem C3_drift_budget_witness :
    0 ≤ cfgTwoRetries.per_attempt_drift_bps ∧
    0 ≤ cfgTwoRetries.max_total_drift_bps ∧
    ((∀ a, (place_limit_order_fok_with_retries rejectingClient cfgTwoRetries
          .buy 5).trace.head? = some a → a.driftBefore = 0) ∧
     List.Chain' (fun a b => a.driftAfter = b.driftBefore)
       (place_limit_order_fok_with_retries rejectingClient cfgTwoRetries .buy 5).trace ∧
     (∀ a ∈ (place_limit_order_fok_with_retries rejectingClient cfgTwoRetries .buy 5).trace,
       a.driftBefore ≤ a.driftAfter ∧
       a.driftBefore ≤ cfgTwoRetries.max_total_drift_bps ∧
       a.driftAfter ≤ cfgTwoRetries.max_total_drift_bps) ∧
     (place_limit_order_fok_with_retries rejectingClient cfgTwoRetries
         .buy 5).finalState.total_drift_bps ≤ cfgTwoRetries.max_total_drift_bps ∧
     (∀ a ∈ (place_limit_order_fok_with_retries rejectingClient cfgTwoRetries .buy 5).trace,
       ∀ e, a.err = some e →
       cfgTwoRetries.max_total_drift_bps < a.driftBefore +
         cfgTwoRetries.per_attempt_drift_bps →
       (place_limit_order_fok_with_retries rejectingClient cfgTwoRetries .buy 5).reason =
         .budgetAbort ∧
       (place_limit_order_fok_with_retries rejectingClient cfgTwoRetries
           .buy 5).trace.getLast? = some a ∧
       (place_limit_order_fok_with_retries rejectingClient cfgTwoRetries .buy 5).result =
         .raisedLast e)) :=
  ⟨by norm_num [cfgTwoRetries], by norm_num [cfgTwoRetries],
   C3_drift_budget_invariant rejectingClient cfgTwoRetries .buy 5
     (by norm_num [cfgTwoRetries]) (by norm_num [cfgTwoRetries])⟩

/-! ## C9: filter fetch frequency -/

/-- C9 counterexample: a single attempt that fills immediately already
performs two symbol-filter fetches (`_apply_filters` and
`_ensure_min_notional` each call `_get_symbol_filters`), refuting the claim
that within one execution the filters are fetched at most once. -/
theorem C9_filters_counterexample :
    (place_limit_order_fok_with_retries fillingClient cfgTwoRetries
        .buy 5).finalState.filterFetches = 2 ∧
    (place_limit_order_fok_with_retries fillingClient cfgTwoRetries .buy 5).trace.length = 1 ∧
    ¬ (place_limit_order_fok_with_retries fillingClient cfgTwoRetries
        .buy 5).finalState.filterFetches ≤ 1 := by
  norm_num [place_limit_order_fok_with_retries, fok_loop, fok_attempt, price_to_fill_full_qty,
    cover_scan, apply_filters, ensure_min_notional, round_step, round_price_for_side,
    ceil_as_floor, fillingClient, cfgTwoRetries, plainFilters, plainBook]

/-- C9 (amended): the symbol filters are re-fetched on every attempt — twice
per attempt that reaches the quantization stage (once by `_apply_filters`,
once by `_ensure_min_notional`), so one execution performs exactly
`2 × (number of submitted attempts)` filter fetches, never at most one per
execution. -/
theorem C9_filters_refetched_amended (c : Client) (cfg : FokConfig) (side : Side) (q : ℚ) :
    (place_limit_order_fok_with_retries c cfg side q).finalState.filterFetches =
      2 * (place_limit_order_fok_with_retries c cfg side q).trace.length := by
  simp only [place_limit_order_fok_with_retries]
  have h := fok_loop_filter_fetches c cfg side q cfg.max_retries.toNat 1 ⟨none, 0, none, 0, 0⟩
  simpa using h

/-! ## C8: rate-limited rejections and the drift budget -/

/-- C8 counterexample: a submission rejected with the rate-limit error
(code -1003) is handled by the same `except` arm as any other rejection: the
attempt consumes `per_attempt_drift_bps` (here drift goes 0 → 2 bps and the
final total is 2), refuting the claim that a rate-limited attempt leaves the
cumulative consumed drift unchanged and does not count against the drift
ceiling. -/
theorem C8_rate_limit_counterexample :
    (place_limit_order_fok_with_retries rateLimitedClient cfgOneRetry .buy 5).trace.map
        (fun a => (a.err, a.driftBefore, a.driftAfter)) =
      [(some ⟨-1003, true⟩, 0, 2)] ∧
    (place_limit_order_fok_with_retries rateLimitedClient cfgOneRetry
        .buy 5).finalState.total_drift_bps = 2 ∧
    (0 : ℚ) ≠ 2 := by
  norm_num [place_limit_order_fok_with_retries, fok_loop, fok_attempt, price_to_fill_full_qty,
    cover_scan, apply_filters, ensure_min_notional, round_step, round_price_for_side,
    ceil_as_floor, rateLimitedClient, cfgOneRetry, plainFilters, plainBook]

/-- C8 (amended): the source never special-cases rate limiting — a logged
attempt rejected with a rate-limit error behaves exactly like any other
retryable rejection: within budget it consumes one `per_attempt_drift_bps`
bump and pauses for the fixed `retry_sleep`; over budget it consumes nothing
and the loop breaks.  (It does count against `max_retries`, one loop
iteration per rejection.) -/
theorem C8_rate_limit_consumes_drift_amended (c : Client) (cfg : FokConfig) (side : Side)
    (q : ℚ) :
    ∀ a ∈ (place_limit_order_fok_with_retries c cfg side q).trace,
      ∀ e, a.err = some e → e.rateLimited = true →
      (¬ cfg.max_total_drift_bps < a.driftBefore + cfg.per_attempt_drift_bps →
        a.driftAfter = a.driftBefore + cfg.per_attempt_drift_bps ∧ a.slept = true) ∧
      (cfg.max_total_drift_bps < a.driftBefore + cfg.per_attempt_drift_bps →
        a.driftAfter = a.driftBefore ∧ a.slept = false) := by
  simp only [place_limit_order_fok_with_retries]
  intro a ha e he _
  obtain ⟨_, _, h3, _⟩ :=
    fok_loop_drift_structure c cfg side q cfg.max_retries.toNat 1 ⟨none, 0, none, 0, 0⟩
  have h := (h3 a ha).2 e he
  exact ⟨h.2, h.1⟩

/-- Witness for the amended C8: the rate-limited rejection of the
single-retry run consumed exactly one 2 bps bump and slept. -/
theorem C8_rate_limit_witness :
    (⟨1, 100, 100, 100, 100, 5, some ⟨-1003, true⟩, 0, 2, true⟩ : AttemptLog) ∈
      (place_limit_order_fok_with_retries rateLimitedClient cfgOneRetry .buy 5).trace ∧
    (⟨1, 100, 100, 100, 100, 5, some ⟨-1003, true⟩, 0, 2, true⟩ : AttemptLog).err =
      some ⟨-1003, true⟩ ∧
    (⟨-1003, true⟩ : ExchangeError).rateLimited = true ∧
    ¬ cfgOneRetry.max_total_drift_bps <
      (⟨1, 100, 100, 100, 100, 5, some ⟨-1003, true⟩, 0, 2, true⟩ : AttemptLog).driftBefore +
        cfgOneRetry.per_attempt_drift_bps ∧
    ((⟨1, 100, 100, 100, 100, 5, some ⟨-1003, true⟩, 0, 2, true⟩ : AttemptLog).driftAfter =
      (⟨1, 100, 100, 100, 100, 5, some ⟨-1003, true⟩, 0, 2, true⟩ : AttemptLog).driftBefore +
        cfgOneRetry.per_attempt_drift_bps ∧
     (⟨1, 100, 100, 100, 100, 5, some ⟨-1003, true⟩, 0, 2, true⟩ : AttemptLog).slept = true) :=
  ⟨by norm_num [place_limit_order_fok_with_retries, fok_loop, fok_attempt,
      price_to_fill_full_qty, cover_scan, apply_filters, ensure_min_notional, round_step,
      round_price_for_side, ceil_as_floor, rateLimitedClient, cfgOneRetry, plainFilters,
      plainBook],
   rfl, rfl, by norm_num [cfgOneRetry],
   (C8_rate_limit_consumes_drift_amended rateLimitedClient cfgOneRetry .buy 5
      ⟨1, 100, 100, 100, 100, 5, some ⟨-1003, true⟩, 0, 2, true⟩
      (by norm_num [place_limit_order_fok_with_retries, fok_loop, fok_attempt,
        price_to_fill_full_qty, cover_scan, apply_filters, ensure_min_notional, round_step,
        round_price_for_side, ceil_as_floor, rateLimitedClient, cfgOneRetry, plainFilters,
        plainBook])
      ⟨-1003, true⟩ rfl rfl).1 (by norm_num [cfgOneRetry])⟩

/-! ## C10: the epilogue raises -/

/-- C10: with `max_retries < 1` the loop body never runs — no book or filter
fetch, nothing logged — and the epilogue raises the untyped `RuntimeError`
fallback because `last_err` is still `None`; conversely the `RuntimeError`
fallback never fires once any attempt was logged, and whenever the execution
ends in `raise last_err` the raised error is exactly the last logged
attempt's exchange error. -/
theorem C10_epilogue_error_paths (c : Client) (cfg : FokConfig) (side : Side) (q : ℚ) :
    (cfg.max_retries < 1 →
      (place_limit_order_fok_with_retries c cfg side q).result = .runtimeError ∧
      (place_limit_order_fok_with_retries c cfg side q).reason = .noAttempts ∧
      (place_limit_order_fok_with_retries c cfg side q).trace = [] ∧
      (place_limit_order_fok_with_retries c cfg side q).finalState.bookFetches = 0 ∧
      (place_limit_order_fok_with_retries c cfg side q).finalState.filterFetches = 0) ∧
    ((place_limit_order_fok_with_retries c cfg side q).result = .runtimeError →
      (place_limit_order_fok_with_retries c cfg side q).trace = []) ∧
    ((∃ a ∈ (place_limit_order_fok_with_retries c cfg side q).trace, a.err ≠ none) →
      (place_limit_order_fok_with_retries c cfg side q).result ≠ .runtimeError) ∧
    (∀ e, (place_limit_order_fok_with_retries c cfg side q).result = .raisedLast e →
      ((place_limit_order_fok_with_retries c cfg side q).trace.getLast?).map
        AttemptLog.err = some (some e)) := by
  simp only [place_limit_order_fok_with_retries]
  obtain ⟨hA, hB⟩ :=
    fok_loop_result_paths c cfg side q cfg.max_retries.toNat 1 ⟨none, 0, none, 0, 0⟩
  refine ⟨?_, fun hres => (hA hres).1, ?_, ?_⟩
  · intro hlt
    have h0 : cfg.max_retries.toNat = 0 := by omega
    rw [h0]
    exact ⟨rfl, rfl, rfl, rfl, rfl⟩
  · rintro ⟨a, ha, _⟩ hres
    rw [(hA hres).1] at ha
    exact absurd ha (List.not_mem_nil a)
  · intro e hres
    rcases hB e hres with hL | ⟨_, hl⟩
    · exact hL
    · cases hl

/-- Witness for C10: with `max_retries = 0` the execution raises the
`RuntimeError` fallback having fetched nothing; with one retry and a
rejection, the final failure re-raises the logged exchange error. -/
theorem C10_epilogue_witness :
    cfgNoRetries.max_retries < 1 ∧
    ((place_limit_order_fok_with_retries rejectingClient cfgNoRetries .buy 5).result =
        .runtimeError ∧
      (place_limit_order_fok_with_retries rejectingClient cfgNoRetries .buy 5).reason =
        .noAttempts ∧
      (place_limit_order_fok_with_retries rejectingClient cfgNoRetries .buy 5).trace = [] ∧
      (place_limit_order_fok_with_retries rejectingClient cfgNoRetries
          .buy 5).finalState.bookFetches = 0 ∧
      (place_limit_order_fok_with_retries rejectingClient cfgNoRetries
          .buy 5).finalState.filterFetches = 0) ∧
    (place_limit_order_fok_with_retries rejectingClient cfgNoRetries .buy 5).trace = [] ∧
    (place_limit_order_fok_with_retries rejectingClient cfgOneRetry .buy 5).result ≠
      .runtimeError ∧
    ((place_limit_order_fok_with_retries rejectingClient cfgOneRetry
        .buy 5).trace.getLast?).map AttemptLog.err = some (some ⟨-2010, false⟩) :=
  ⟨by norm_num [cfgNoRetries],
   (C10_epilogue_error_paths rejectingClient cfgNoRetries .buy 5).1
     (by norm_num [cfgNoRetries]),
   (C10_epilogue_error_paths rejectingClient cfgNoRetries .buy 5).2.1
     (by norm_num [place_limit_order_fok_with_retries, fok_loop, cfgNoRetries]),
   (C10_epilogue_error_paths rejectingClient cfgOneRetry .buy 5).2.2.1
     ⟨⟨1, 100, 100, 100, 100, 5, some ⟨-2010, false⟩, 0, 2, true⟩,
      by norm_num [place_limit_order_fok_with_retries, fok_loop, fok_attempt,
        price_to_fill_full_qty, cover_scan, apply_filters, ensure_min_notional, round_step,
        round_price_for_side, ceil_as_floor, rejectingClient, cfgOneRetry, plainFilters,
        plainBook],
      by simp⟩,
   (C10_epilogue_error_paths rejectingClient cfgOneRetry .buy 5).2.2.2 ⟨-2010, false⟩
     (by norm_num [place_limit_order_fok_with_retries, fok_loop, fok_attempt,
       price_to_fill_full_qty, cover_scan, apply_filters, ensure_min_notional, round_step,
       round_price_for_side, ceil_as_floor, rejectingClient, cfgOneRetry, plainFilters,
       plainBook])⟩

/-! ## C1: the drift is never applied to the price -/

/-- C1 (code bug): with a constant book (covering price 100), zero slippage,
2 bps drift per attempt and two attempts both rejected, the drift budget is
charged (`driftBefore` of attempt 2 is 2 bps) yet the raw price of attempt 2
is still 100 — identical to attempt 1 — whereas the claimed formula
`ref × (1 + (slippage + (n-1)·perAttempt)/10⁴)` demands `100.02`.  The
source's own header comments promise that on rejection the price is
progressively pulled by `per_attempt_drift_bps`, but `total_drift_bps` is
used only for the budget check and logging, and `base_price_ref` only for
logging: the concession is never added to any price. -/
theorem C1_drift_never_applied_to_price :
    (place_limit_order_fok_with_retries rejectingClient cfgTwoRetries .buy 5).trace.map
        AttemptLog.raw_price = [100, 100] ∧
    (place_limit_order_fok_with_retries rejectingClient cfgTwoRetries .buy 5).trace.map
        AttemptLog.driftBefore = [0, 2] ∧
    (100 : ℚ) * (1 + (cfgTwoRetries.slippage_bps +
        cfgTwoRetries.per_attempt_drift_bps) / 10000) ≠ 100 := by
  refine ⟨?_, ?_, by norm_num [cfgTwoRetries]⟩ <;>
    norm_num [place_limit_order_fok_with_retries, fok_loop, fok_attempt,
      price_to_fill_full_qty, cover_scan, apply_filters, ensure_min_notional, round_step,
      round_price_for_side, ceil_as_floor, rejectingClient, cfgTwoRetries, plainFilters,
      plainBook]
